import Mathlib

/-!
Verification of the market-basket-analysis backend (`backend/main.py`).

The Python source is shallowly embedded below: pandas cells become an
inductive `Cell` type, dataframes become `Df` (column names plus rows of
cells), the encoded transaction matrix becomes `EncodedDf` (column names
plus rows of 0/1 naturals), and floating-point arithmetic is modelled with
exact rationals.  Fallible functions return `Except`.
-/

namespace MBA

/-- A raw table cell: missing (NaN), numeric, or text, mirroring pandas cells. -/
inductive Cell where
  | na : Cell
  | num : ℚ → Cell
  | str : String → Cell
deriving DecidableEq, Repr

/-- A raw tabular input (a pandas DataFrame): named columns and rows of cells. -/
structure Df where
  cols : List String
  rows : List (List Cell)
deriving DecidableEq, Repr

/-- A binary transaction matrix: named item columns and rows of 0/1 entries. -/
structure EncodedDf where
  cols : List String
  rows : List (List ℕ)
deriving DecidableEq, Repr

/-- Errors raised by the encoder (`ValueError`s in `main.py`). -/
inductive EncodeErr where
  | emptyDataset
  | noValidTransactions
  | noItemsAfterEncoding
deriving DecidableEq, Repr

deriving instance DecidableEq for Except

/-- Code-point comparison of characters (Python's character order). -/
def charLt (a b : Char) : Bool :=
  a.toNat < b.toNat

/-- Lexicographic code-point comparison of character lists. -/
def strLtList : List Char → List Char → Bool
  | [], [] => false
  | [], _ :: _ => true
  | _ :: _, [] => false
  | a :: as, b :: bs => if a = b then strLtList as bs else charLt a b

/-- Python string comparison `a < b` (lexicographic by code point). -/
def strLt (a b : String) : Bool :=
  strLtList a.data b.data

/-- `hay` starts with `needle` (on character lists). -/
def listStartsWith : List Char → List Char → Bool
  | [], _ => true
  | _ :: _, [] => false
  | a :: as, b :: bs => a == b && listStartsWith as bs

/-- Substring occurrence on character lists. -/
def containsList (needle : List Char) : List Char → Bool
  | [] => needle.isEmpty
  | c :: cs => listStartsWith needle (c :: cs) || containsList needle cs

/-- Python's substring test `needle in hay`. -/
def containsSub (needle hay : String) : Bool :=
  containsList needle.data hay.data

/-- Python `str.startswith` / the pandas regex anchor `^`. -/
def startsWithStr (needle hay : String) : Bool :=
  listStartsWith needle.data hay.data

/-- ASCII lowercase conversion of one character. -/
def lcChar (c : Char) : Char :=
  if 65 ≤ c.toNat ∧ c.toNat ≤ 90 then Char.ofNat (c.toNat + 32) else c

/-- Python `str.lower`. -/
def lowerStr (s : String) : String :=
  ⟨s.data.map lcChar⟩

/-- Whitespace characters stripped by Python `str.strip`. -/
def isSpaceChar (c : Char) : Bool :=
  c = ' ' || c = '\t' || c = '\n' || c = '\r'

/-- Strip leading and trailing whitespace from a character list. -/
def trimChars (l : List Char) : List Char :=
  ((l.dropWhile isSpaceChar).reverse.dropWhile isSpaceChar).reverse

/-- Python `str.strip`. -/
def pyStrip (s : String) : String :=
  ⟨trimChars s.data⟩

/-- Split a character list on the comma character (Python `str.split(",")`). -/
def splitCommaAux : List Char → List Char → List (List Char)
  | [], acc => [acc.reverse]
  | c :: cs, acc =>
    if c = ',' then acc.reverse :: splitCommaAux cs [] else splitCommaAux cs (c :: acc)

/-- Python `s.split(",")` as a list of strings. -/
def splitComma (s : String) : List String :=
  (splitCommaAux s.data []).map (fun l => ⟨l⟩)

/-- `.isNa c` holds for the missing-value cell. -/
def Cell.isNa : Cell → Bool
  | .na => true
  | _ => false

/-- `.isStr c` holds for text cells; a pandas column holding any text cell
has dtype `object`. -/
def Cell.isStr : Cell → Bool
  | .str _ => true
  | _ => false

/-- Python `str(x)` on a cell value (as used before splitting / grouping). -/
def cellStr : Cell → String
  | .na => "nan"
  | .num q => toString q
  | .str s => s

/-- Python `str(x)` after `fillna("")` (line 138/151): NaN renders as `""`. -/
def cellStrFill : Cell → String
  | .na => ""
  | .num q => toString q
  | .str s => s

/-- Insert a string into an ascending list (helper for sorting). -/
def insStr (x : String) : List String → List String
  | [] => [x]
  | y :: ys => if strLt x y then x :: y :: ys else y :: insStr x ys

/-- Ascending insertion sort on strings (models Python `sorted`). -/
def sortStrings : List String → List String
  | [] => []
  | x :: xs => insStr x (sortStrings xs)

/-- The truthy token set of `_to_bool01` (line 97). -/
def truthyTokens : List String := ["1", "true", "yes", "y", "t", "x"]

/-- `_to_bool01` (lines 90-97): NaN maps to 0, numbers map to 1 iff nonzero,
text maps to 1 iff its stripped lowercase form is a truthy token. -/
def toBool01 : Cell → ℕ
  | .na => 0
  | .num q => if q ≠ 0 then 1 else 0
  | .str s => if lowerStr (pyStrip s) ∈ truthyTokens then 1 else 0

/-- The numeric-column branch of case 4 (line 165): `(x > 0).astype(int)`.
NaN compares false against 0, hence encodes to 0. -/
def numericCell01 : Cell → ℕ
  | .num q => if 0 < q then 1 else 0
  | _ => 0

/-- `transactional_to_onehot` (lines 99-108): drop empty transactions, fail
when none remain, otherwise one-hot encode over the sorted vocabulary
(mlxtend's `TransactionEncoder` sorts its columns). -/
def transactional_to_onehot (transactions : List (List String)) : Except EncodeErr EncodedDf :=
  let ts := transactions.filter (fun t => !t.isEmpty)
  if ts.isEmpty then .error .noValidTransactions
  else
    let vocab := sortStrings (ts.foldr (· ++ ·) []).dedup
    .ok ⟨vocab, ts.map (fun t => vocab.map (fun v => if v ∈ t then 1 else 0))⟩

/-- Indices of the columns kept by line 123 (names not starting with `Unnamed`). -/
def keepIdx (df : Df) : List ℕ :=
  (List.range df.cols.length).filter (fun j => !startsWithStr "Unnamed" (df.cols.getD j ""))

/-- Line 123: `df.loc[:, ~df.columns.str.contains('^Unnamed')]`. -/
def dropUnnamed (df : Df) : Df :=
  ⟨(keepIdx df).map (fun j => df.cols.getD j ""),
   df.rows.map (fun r => (keepIdx df).map (fun j => r.getD j .na))⟩

/-- pandas `df.empty`: true when either axis has length zero. -/
def dfEmpty (df : Df) : Bool :=
  df.rows.isEmpty || df.cols.isEmpty

/-- Case-1 guard (lines 126-129): exactly two columns and the second column's
lowercased name contains `item` or `product`. -/
def case1Cond (df : Df) : Bool :=
  df.cols.length == 2 &&
    (containsSub "item" (lowerStr (df.cols.getD 1 "")) ||
     containsSub "product" (lowerStr (df.cols.getD 1 "")))

/-- Case 1 body (line 131): group rows by the first column's value (pandas
`groupby` drops NaN keys and sorts group keys), collecting the second
column's values, in row order, as one transaction per group. -/
def groupedTransactions (df : Df) : List (List String) :=
  let pairs := df.rows.filterMap (fun r =>
    let k := r.getD 0 .na
    if k.isNa then none else some (cellStr k, cellStr (r.getD 1 .na)))
  let keys := sortStrings (pairs.map Prod.fst).dedup
  keys.map (fun k => (pairs.filter (fun p => p.fst == k)).map Prod.snd)

/-- Comma-split a cell into items (lines 139/152): split on `,`, strip each
piece, discard empties. -/
def splitItems (c : Cell) : List String :=
  ((splitComma (cellStrFill c)).map pyStrip).filter (fun s => !s.isEmpty)

/-- Comma-split an entire column, dropping rows that yield zero items. -/
def splitColumn (df : Df) (j : ℕ) : List (List String) :=
  df.rows.filterMap (fun r =>
    let items := splitItems (r.getD j .na)
    if items.isEmpty then none else some items)

/-- Case-3 column search (line 147): the first column whose lowercased name
contains `item`. -/
def firstItemColIdx (df : Df) : Option ℕ :=
  (List.range df.cols.length).find? (fun j => containsSub "item" (lowerStr (df.cols.getD j "")))

/-- pandas dtype test of line 162: a column is `object` when it holds a text cell. -/
def colIsObject (df : Df) (j : ℕ) : Bool :=
  df.rows.any (fun r => (r.getD j .na).isStr)

/-- One cell of the case-4 fallback: object columns go through `_to_bool01`,
numeric columns through `> 0` (lines 161-165). -/
def fallbackCell (isObj : Bool) (c : Cell) : ℕ :=
  if isObj then toBool01 c else numericCell01 c

/-- The case-4 fallback matrix (lines 160-165). -/
def fallbackMatrix (df : Df) : List (List ℕ) :=
  df.rows.map (fun r =>
    (List.range df.cols.length).map (fun j => fallbackCell (colIsObject df j) (r.getD j .na)))

/-- Case 4 (lines 158-171): binarize in place and fail when the matrix has no
positive cell. -/
def fallbackEncode (df : Df) : Except EncodeErr EncodedDf :=
  let m := fallbackMatrix df
  if (m.map List.sum).sum = 0 then .error .noItemsAfterEncoding
  else .ok ⟨df.cols, m⟩

/-- The detection cascade of `detect_and_encode` after the `Unnamed` drop
(lines 125-171), transliterated from the source control flow. -/
def detectCore (df : Df) : Except EncodeErr EncodedDf :=
  if case1Cond df then transactional_to_onehot (groupedTransactions df)
  else if df.cols.length == 1 then
    let ts := splitColumn df 0
    if ts.isEmpty then .error .noValidTransactions else transactional_to_onehot ts
  else
    match firstItemColIdx df with
    | some j =>
      let ts := splitColumn df j
      if ts.isEmpty then fallbackEncode df else transactional_to_onehot ts
    | none => fallbackEncode df

/-- `detect_and_encode` (lines 110-171): fail on an empty frame, drop
`Unnamed` columns, then run the detection cascade. -/
def detect_and_encode (df : Df) : Except EncodeErr EncodedDf :=
  if dfEmpty df then .error .emptyDataset else detectCore (dropUnnamed df)

/-! ## Computable rational arithmetic

The Python code computes supports, confidences and thresholds with
floating-point arithmetic; all quantities here are small exact fractions
and are modelled with `ℚ`.  The library normalization of `ℚ` uses
`Nat.gcd`, which the kernel cannot evaluate, so `qMk` rebuilds the same
normalized rationals with a structurally recursive gcd; `qMk_eq_div` (in
the theorem section below) shows `qMk n d = n / d`. -/

/-- Fuel-based Euclidean algorithm (structurally recursive in the fuel). -/
def sgcdAux : ℕ → ℕ → ℕ → ℕ
  | 0, _, n => n
  | f + 1, m, n => if m = 0 then n else sgcdAux f (n % m) m

/-- Kernel-computable gcd. -/
def sgcd (m n : ℕ) : ℕ := sgcdAux m m n

/-- `sgcdAux` agrees with `Nat.gcd` once the fuel covers the first argument. -/
def sgcdAux_eq_gcd : ∀ (f m n : ℕ), m ≤ f → sgcdAux f m n = Nat.gcd m n := by
  intro f
  induction f with
  | zero =>
    intro m n h
    have hm : m = 0 := Nat.le_zero.mp h
    subst hm
    simp [sgcdAux]
  | succ f ih =>
    intro m n h
    by_cases hm : m = 0
    · subst hm; simp [sgcdAux]
    · have hlt : n % m < m := Nat.mod_lt _ (Nat.pos_of_ne_zero hm)
      have hle : n % m ≤ f := by omega
      rw [sgcdAux, if_neg hm, ih _ _ hle, ← Nat.gcd_rec m n]

/-- `sgcd` agrees with `Nat.gcd`. -/
def sgcd_eq_gcd (m n : ℕ) : sgcd m n = Nat.gcd m n :=
  sgcdAux_eq_gcd m m n (Nat.le_refl m)

/-- The normalized rational `num / den` (0 when `den = 0`), built exactly
like `mkRat` but with the kernel-computable gcd. -/
def qMk (num : Int) (den : ℕ) : ℚ :=
  if den_nz : den = 0 then 0
  else
    Rat.maybeNormalize num den (sgcd num.natAbs den)
      (Rat.normalize.den_nz den_nz (sgcd_eq_gcd num.natAbs den))
      (Rat.normalize.reduced den_nz (sgcd_eq_gcd num.natAbs den))

/-- Rational multiplication through `qMk`. -/
def qMul (a b : ℚ) : ℚ := qMk (a.num * b.num) (a.den * b.den)

/-- Rational addition through `qMk`. -/
def qAdd (a b : ℚ) : ℚ := qMk (a.num * b.den + b.num * a.den) (a.den * b.den)

/-- Rational division through `qMk`. -/
def qDivQ (a b : ℚ) : ℚ :=
  if 0 ≤ b.num then qMk (a.num * b.den) (a.den * b.num.toNat)
  else qMk (-(a.num * b.den)) (a.den * b.num.natAbs)

/-- Python `max` on rationals. -/
def qMax (a b : ℚ) : ℚ := if a ≤ b then b else a

/-- Python `min` on rationals. -/
def qMin (a b : ℚ) : ℚ := if a ≤ b then a else b

/-! ## Itemset mining

`main.py` delegates frequent-itemset mining and rule derivation to
mlxtend's `apriori` and `association_rules`, whose code is not part of this
repository; they are modelled from the spec below. -/

/-- A row contains an itemset (given as column indices) when every listed
column is 1 in that row. -/
def rowHasAll (r : List ℕ) (S : List ℕ) : Bool :=
  S.all (fun j => r.getD j 0 == 1)

/-- Number of transactions containing the itemset. -/
def supportCount (X : EncodedDf) (S : List ℕ) : ℕ :=
  (X.rows.filter (fun r => rowHasAll r S)).length

/-- Support of an itemset: containing-transaction count over total count. -/
def support (X : EncodedDf) (S : List ℕ) : ℚ :=
  qMk (supportCount X S) X.rows.length

/-- Insert a column index into an ascending index list. -/
def insNat (x : ℕ) : List ℕ → List ℕ
  | [] => [x]
  | y :: ys => if x < y then x :: y :: ys else y :: insNat x ys

/-- Ascending insertion sort on column indices. -/
def sortNats : List ℕ → List ℕ
  | [] => []
  | x :: xs => insNat x (sortNats xs)

/-- All unordered pairs of distinct positions of a list. -/
def allPairs : List α → List (α × α)
  | [] => []
  | x :: xs => xs.map (fun y => (x, y)) ++ allPairs xs

/-- Sorted, duplicate-free union of two index lists. -/
def idxUnion (A B : List ℕ) : List ℕ :=
  sortNats (A ++ B.filter (fun b => !A.contains b))

/-- Size of the intersection of two index lists. -/
def interCount (A B : List ℕ) : ℕ :=
  (A.filter (fun a => B.contains a)).length

/-- Modelled from the spec: the Apriori join step (§4.2) — candidates of
level k are unions of pairs of frequent (k−1)-itemsets sharing exactly k−2
items.  (mlxtend's `apriori` is not part of this repository's sources.) -/
def genCandidates (prev : List (List ℕ)) (k : ℕ) : List (List ℕ) :=
  ((allPairs prev).filterMap (fun p =>
    let U := idxUnion p.1 p.2
    if interCount p.1 p.2 == k - 2 && U.length == k then some U else none)).dedup

/-- All (k−1)-subsets of a duplicate-free itemset, obtained by removing one
element. -/
def dropOneSubsets (S : List ℕ) : List (List ℕ) :=
  S.map (fun x => S.filter (fun y => y ≠ x))

/-- Modelled from the spec: one Apriori level (§4.2) — join, prune every
candidate with an infrequent (k−1)-subset, then keep candidates whose
support meets the threshold. -/
def nextLevel (X : EncodedDf) (s : ℚ) (prev : List (List ℕ)) (k : ℕ) : List (List ℕ) :=
  let pruned := (genCandidates prev k).filter
    (fun c => (dropOneSubsets c).all (fun t => prev.contains t))
  pruned.filter (fun c => decide (s ≤ support X c))

/-- Modelled from the spec: the level loop of Apriori (§4.2), fuelled by the
vocabulary size; terminates when a level is empty. -/
def levelsFrom (X : EncodedDf) (s : ℚ) : ℕ → List (List ℕ) → ℕ → List (List ℕ)
  | 0, _, _ => []
  | fuel + 1, prev, k =>
    if prev.isEmpty then []
    else
      let nxt := nextLevel X s prev k
      nxt ++ levelsFrom X s fuel nxt (k + 1)

/-- Modelled from the spec: level 1 of Apriori — frequent single items, in
column order. -/
def levelOne (X : EncodedDf) (s : ℚ) : List (List ℕ) :=
  ((List.range X.cols.length).filter (fun j => decide (s ≤ support X [j]))).map (fun j => [j])

/-- Modelled from the spec: the full Apriori frequent-itemset enumeration
(§4.2), level by level, size ascending. -/
def aprioriIdx (X : EncodedDf) (s : ℚ) : List (List ℕ) :=
  let F1 := levelOne X s
  F1 ++ levelsFrom X s X.cols.length F1 2

/-- `apriori(df, min_support, use_colnames=True)` as called at line 425:
frequent itemsets as sorted column-name lists (the rendering layer sorts
each frozenset) paired with their supports. -/
def mineNamed (X : EncodedDf) (s : ℚ) : List (List String × ℚ) :=
  (aprioriIdx X s).map (fun S =>
    (sortStrings (S.map (fun j => X.cols.getD j "")), support X S))

/-- Insert an itemset-support pair into a support-descending list, after any
earlier pair of equal support (stable descending insertion). -/
def insSupportDesc (x : List String × ℚ) : List (List String × ℚ) → List (List String × ℚ)
  | [] => [x]
  | y :: ys => if y.2 < x.2 then x :: y :: ys else y :: insSupportDesc x ys

/-- Stable sort by support descending, modelling
`sort_values("support", ascending=False)` at line 446. -/
def sortSupportDesc (l : List (List String × ℚ)) : List (List String × ℚ) :=
  l.foldl (fun acc x => insSupportDesc x acc) []

/-- The itemset sequence the analysis returns: mining output sorted by
support descending (line 446). -/
def mineSorted (X : EncodedDf) (s : ℚ) : List (List String × ℚ) :=
  sortSupportDesc (mineNamed X s)

/-! ## Association rules -/

/-- An association rule with its metrics. -/
structure Rule where
  antecedents : List String
  consequents : List String
  support : ℚ
  confidence : ℚ
  lift : ℚ
deriving DecidableEq, Repr

/-- Support lookup among the mined frequent itemsets (itemsets are kept in
canonical sorted form, so list equality is itemset equality). -/
def lookupSupp (fi : List (List String × ℚ)) (S : List String) : Option ℚ :=
  (fi.find? (fun p => p.1 == S)).map Prod.snd

/-- Non-empty proper subsets of a (sorted, duplicate-free) itemset. -/
def properSubsets (S : List String) : List (List String) :=
  S.sublists.filter (fun A => !A.isEmpty && A.length < S.length)

/-- Modelled from the spec: `generateRules` (§4.3) — for each frequent
itemset of size ≥ 2 and each non-empty proper subset as antecedent, build
the rule with confidence = support(itemset)/support(antecedent) and
lift = confidence/support(consequent), keeping rules whose confidence meets
the threshold.  (mlxtend's `association_rules` is not part of this
repository's sources.) -/
def assocRules (fi : List (List String × ℚ)) (c : ℚ) : List Rule :=
  fi.flatMap (fun p =>
    if 2 ≤ p.1.length then
      (properSubsets p.1).flatMap (fun A =>
        match lookupSupp fi A, lookupSupp fi (p.1.filter (fun x => !A.contains x)) with
        | some sa, some sc =>
          if decide (c ≤ qDivQ p.2 sa) then
            [⟨A, p.1.filter (fun x => !A.contains x), p.2, qDivQ p.2 sa,
              qDivQ (qDivQ p.2 sa) sc⟩]
          else []
        | _, _ => [])
    else [])

/-! ## Threshold advisor and co-occurrence -/

/-- Column sum of the encoded matrix. -/
def colSum (X : EncodedDf) (j : ℕ) : ℕ :=
  (X.rows.map (fun r => r.getD j 0)).sum

/-- Per-item frequency: column sum over transaction count (line 176). -/
def itemFrequencies (X : EncodedDf) : List ℚ :=
  (List.range X.cols.length).map (fun j => qMk (colSum X j) X.rows.length)

/-- Insert a rational into an ascending list. -/
def insQ (x : ℚ) : List ℚ → List ℚ
  | [] => [x]
  | y :: ys => if x < y then x :: y :: ys else y :: insQ x ys

/-- Ascending insertion sort on rationals. -/
def sortQ : List ℚ → List ℚ
  | [] => []
  | x :: xs => insQ x (sortQ xs)

/-- Minimum of a frequency list (pandas `.min()`; 0 on an empty list). -/
def listMinQ : List ℚ → ℚ
  | [] => 0
  | x :: xs => xs.foldl qMin x

/-- pandas `.median()`: middle element of the sorted list, or the mean of
the two middle elements for an even count (0 on an empty list). -/
def medianQ (l : List ℚ) : ℚ :=
  let s := sortQ l
  if s.isEmpty then 0
  else if s.length % 2 == 1 then s.getD (s.length / 2) 0
  else qDivQ (qAdd (s.getD (s.length / 2 - 1) 0) (s.getD (s.length / 2) 0)) 2

/-- The five suggested support thresholds. -/
structure Suggestions where
  very_low : ℚ
  low : ℚ
  conservative : ℚ
  moderate : ℚ
  strict : ℚ
deriving DecidableEq, Repr

/-- `calculate_optimal_support` (lines 173-191). -/
def calculate_optimal_support (X : EncodedDf) : Suggestions :=
  let min_freq := listMinQ (itemFrequencies X)
  let median_freq := medianQ (itemFrequencies X)
  { very_low := qMax (qMk 1 100) (qMul min_freq (qMk 1 2))
    low := qMax (qMk 1 50) min_freq
    conservative := qMax (qMk 1 20) (qMul median_freq (qMk 3 10))
    moderate := qMax (qMk 1 10) (qMul median_freq (qMk 1 2))
    strict := qMax (qMk 1 5) median_freq }

/-- One cell of `X.T @ X`: the dot product of columns `i` and `j`. -/
def dotCols (X : EncodedDf) (i j : ℕ) : ℕ :=
  (X.rows.map (fun r => r.getD i 0 * r.getD j 0)).sum

/-- `build_cooccurrence` (lines 193-199): `X.T @ X` with the diagonal then
forced to zero. -/
def build_cooccurrence (X : EncodedDf) : List (List ℕ) :=
  (List.range X.cols.length).map (fun i =>
    (List.range X.cols.length).map (fun j => if i = j then 0 else dotCols X i j))

/-- Cell extraction from a co-occurrence matrix (0 outside the matrix). -/
def coCell (m : List (List ℕ)) (i j : ℕ) : ℕ :=
  (m.getD i []).getD j 0

/-! ## The upload pipeline around the miner (lines 419-466) -/

/-- The pipeline error raised at line 439 when mining finds nothing. -/
inductive PipeErr where
  | noFrequentItemsets
deriving DecidableEq, Repr

/-- Lines 419-421: a filename containing `sample_transactions` forces
`min_support = min(min_support, 0.05)`. -/
def effectiveMinSupport (filename : String) (s : ℚ) : ℚ :=
  if containsSub "sample_transactions" filename then qMin s (qMk 1 20) else s

/-- Lines 424-439: mine at `s`; if empty and `s` exceeds the `very_low`
suggestion, re-mine once at `very_low`; fail only if the result is still
empty.  Returns the itemsets together with the `min_support` actually used
(which line 507 records in the response metadata). -/
def uploadMining (X : EncodedDf) (s : ℚ) : Except PipeErr (List (List String × ℚ) × ℚ) :=
  let fi := mineNamed X s
  let vl := (calculate_optimal_support X).very_low
  let fi2 := if fi.isEmpty && decide (vl < s) then (mineNamed X vl, vl) else (fi, s)
  if fi2.1.isEmpty then .error .noFrequentItemsets else .ok fi2

/-- Lines 449-468: generate rules at `c` when more than one frequent itemset
exists; if none pass and `c > 0.1`, regenerate at confidence `0.1`.
Returns the rules together with the `min_confidence` actually used (which
line 508 records in the response metadata). -/
def uploadRules (fi : List (List String × ℚ)) (c : ℚ) : List Rule × ℚ :=
  if 1 < fi.length then
    let rules := assocRules fi c
    if rules.isEmpty && decide (qMk 1 10 < c) then (assocRules fi (qMk 1 10), qMk 1 10)
    else (rules, c)
  else ([], c)

/-- The analysis portion of `upload_dataset` on an already-encoded matrix:
filename-dependent support adjustment, mining with retry, rule generation
with retry. -/
def uploadAnalysis (filename : String) (X : EncodedDf) (s c : ℚ) :
    Except PipeErr ((List (List String × ℚ) × ℚ) × (List Rule × ℚ)) := do
  let mined ← uploadMining X (effectiveMinSupport filename s)
  pure (mined, uploadRules mined.1 c)

/-! ## Spec-side definitions used to state the claims -/

/-- The tagged detection variants named by the spec (§9). -/
inductive FormatRule where
  | groupedIdItem
  | singleColumnList
  | namedItemColumn
  | alreadyEncoded
deriving DecidableEq, Repr

/-- The encoding performed by each detection rule, as the spec words it:
rule 3 uses "the same comma-split strategy as (2)", hence fails like rule 2
when every row yields zero items. -/
def applyRule (d : Df) : FormatRule → Except EncodeErr EncodedDf
  | .groupedIdItem => transactional_to_onehot (groupedTransactions d)
  | .singleColumnList =>
    let ts := splitColumn d 0
    if ts.isEmpty then .error .noValidTransactions else transactional_to_onehot ts
  | .namedItemColumn =>
    match firstItemColIdx d with
    | some j =>
      let ts := splitColumn d j
      if ts.isEmpty then .error .noValidTransactions else transactional_to_onehot ts
    | none => .error .noValidTransactions
  | .alreadyEncoded => fallbackEncode d

/-- First-match-wins rule selection exactly as the claim words it: rule 3
matches as soon as a column whose name contains `item` exists. -/
def claimRuleFor (d : Df) : FormatRule :=
  if case1Cond d then .groupedIdItem
  else if d.cols.length == 1 then .singleColumnList
  else if (firstItemColIdx d).isSome then .namedItemColumn
  else .alreadyEncoded

/-- The encoder as the claim describes it (ordered rules, first match wins,
rule 3 matching on column name alone). -/
def claimEncode (df : Df) : Except EncodeErr EncodedDf :=
  if dfEmpty df then .error .emptyDataset
  else applyRule (dropUnnamed df) (claimRuleFor (dropUnnamed df))

/-- The comma-split of the first `item`-named column, empty when no such
column exists. -/
def itemColSplit (d : Df) : List (List String) :=
  match firstItemColIdx d with
  | some j => splitColumn d j
  | none => []

/-- Amended rule selection: rule 3 additionally requires its comma-split to
yield at least one transaction, otherwise detection falls through to the
one-hot fallback (matching the source's behaviour). -/
def amendedRuleFor (d : Df) : FormatRule :=
  if case1Cond d then .groupedIdItem
  else if d.cols.length == 1 then .singleColumnList
  else if (firstItemColIdx d).isSome && !(itemColSplit d).isEmpty then .namedItemColumn
  else .alreadyEncoded

/-- The encoder under the amended rule list. -/
def amendedEncode (df : Df) : Except EncodeErr EncodedDf :=
  if dfEmpty df then .error .emptyDataset
  else applyRule (dropUnnamed df) (amendedRuleFor (dropUnnamed df))

/-- The per-cell one-hot coercion exactly as the claim words it: numeric
cells map to 1 exactly when nonzero, text cells to 1 exactly when truthy. -/
def claimFallbackCell : Cell → ℕ
  | .na => 0
  | .num q => if q ≠ 0 then 1 else 0
  | .str s => if lowerStr (pyStrip s) ∈ truthyTokens then 1 else 0

/-- Lexicographic comparison of itemsets (as sorted item-name lists). -/
def strListLexLt : List String → List String → Bool
  | [], [] => false
  | [], _ :: _ => true
  | _ :: _, [] => false
  | a :: as, b :: bs => if a = b then strListLexLt as bs else strLt a b

/-- The ordering the claim asserts for the mined sequence: support
descending, ties by itemset size ascending, then lexicographic item
order. -/
def claimItemsetLe (p q : List String × ℚ) : Bool :=
  decide (q.2 < p.2) ||
    (p.2 == q.2 &&
      (p.1.length < q.1.length ||
        (p.1.length == q.1.length && (strListLexLt p.1 q.1 || p.1 == q.1))))

/-- Adjacent-pairs sortedness for a boolean comparison. -/
def sortedByB (le : α → α → Bool) : List α → Bool
  | [] => true
  | [_] => true
  | a :: b :: t => le a b && sortedByB le (b :: t)

/-- A matrix is binary when every entry is 0 or 1. -/
def binaryMatrix (X : EncodedDf) : Prop :=
  ∀ r ∈ X.rows, ∀ v ∈ r, v = 0 ∨ v = 1

/-- The spec-side threshold formulas of §4.5, written with ordinary
rational arithmetic. -/
def claimSuggestions (X : EncodedDf) : Suggestions :=
  let min_freq := listMinQ (itemFrequencies X)
  let median_freq := medianQ (itemFrequencies X)
  { very_low := max 0.01 (min_freq * 0.5)
    low := max 0.02 min_freq
    conservative := max 0.05 (median_freq * 0.3)
    moderate := max 0.1 (median_freq * 0.5)
    strict := max 0.2 median_freq }

/-! ## Concrete example tables and matrices -/

/-- A table with a column but no rows. -/
def exDf9 : Df := ⟨["items"], []⟩

/-- A two-column numeric table whose column names are in anti-alphabetical
order; the one-hot fallback encodes it. -/
def exDf4 : Df := ⟨["b", "a"], [[.num 1, .num 0], [.num 0, .num 1]]⟩

/-- The encoding of `exDf4`. -/
def exX4 : EncodedDf := ⟨["b", "a"], [[1, 0], [0, 1]]⟩

/-- A three-column table with an `items` column whose only cell splits to
zero items. -/
def exDf5 : Df := ⟨["a", "b", "items"], [[.num 1, .num 0, .str ""]]⟩

/-- A two-column numeric table holding a negative value. -/
def exDf6 : Df := ⟨["a", "b"], [[.num (-1), .num 1]]⟩

/-- A three-column table whose first column is named `Unnamed: 0`. -/
def exDf10 : Df :=
  ⟨["Unnamed: 0", "tid", "item"],
   [[.num 0, .str "t1", .str "bread"],
    [.num 1, .str "t1", .str "milk"],
    [.num 2, .str "t2", .str "eggs"]]⟩

/-- Two items on disjoint transactions: both have support 1/2. -/
def exX1 : EncodedDf := ⟨["a", "b"], [[1, 0], [0, 1]]⟩

/-- Ten transactions where confidences of both rules over `{a,b}` lie in
`[0.1, 0.5)`. -/
def exX1b : EncodedDf :=
  ⟨["a", "b"], [[1, 1], [1, 0], [1, 0], [1, 0], [1, 0],
                [0, 1], [0, 1], [0, 1], [0, 1], [0, 1]]⟩

/-- Ten transactions: item `a` everywhere, item `b` once. -/
def exX3 : EncodedDf :=
  ⟨["a", "b"], [[1, 1], [1, 0], [1, 0], [1, 0], [1, 0],
                [1, 0], [1, 0], [1, 0], [1, 0], [1, 0]]⟩

/-- The spec's §8 scenario matrix: transactions
`[[bread,milk],[bread,butter],[milk,butter],[bread,milk,butter]]`. -/
def exXS : EncodedDf :=
  ⟨["bread", "butter", "milk"], [[1, 0, 1], [1, 1, 0], [0, 1, 1], [1, 1, 1]]⟩

/-! # Theorems

First the bridging lemmas showing the computable rational helpers agree
with ordinary rational arithmetic, then general list lemmas, then one
theorem per specification claim. -/

theorem maybeNormalize_eq_normalize (num : Int) (den : ℕ) (h : den ≠ 0)
    (g : ℕ) (e : g = num.natAbs.gcd den) (p1 : den / g ≠ 0)
    (p2 : (num.tdiv g).natAbs.Coprime (den / g)) :
    Rat.maybeNormalize num den g p1 p2 = Rat.normalize num den h := by
  subst e
  rfl

theorem qMk_eq_mkRat (num : Int) (den : ℕ) : qMk num den = mkRat num den := by
  by_cases h : den = 0
  · simp [qMk, mkRat, h]
  · simp only [qMk, mkRat, dif_neg h]
    exact maybeNormalize_eq_normalize num den h _ (sgcd_eq_gcd num.natAbs den) _ _

/-- `qMk` is ordinary rational division. -/
theorem qMk_eq_div (num : Int) (den : ℕ) : qMk num den = (num : ℚ) / (den : ℚ) := by
  rw [qMk_eq_mkRat, Rat.mkRat_eq_div]

theorem qMul_eq (a b : ℚ) : qMul a b = a * b := by
  rw [qMul, qMk_eq_div]
  push_cast
  rw [← div_mul_div_comm, Rat.num_div_den, Rat.num_div_den]

theorem qAdd_eq (a b : ℚ) : qAdd a b = a + b := by
  have ha : ((a.den : ℚ)) ≠ 0 := Nat.cast_ne_zero.mpr a.den_nz
  have hb : ((b.den : ℚ)) ≠ 0 := Nat.cast_ne_zero.mpr b.den_nz
  rw [qAdd, qMk_eq_div]
  push_cast
  conv_rhs => rw [← Rat.num_div_den a, ← Rat.num_div_den b]
  rw [div_add_div _ _ ha hb]
  ring_nf

theorem num_mul_den_div (a b : ℚ) :
    ((a.num : ℚ) * (b.den : ℚ)) / ((a.den : ℚ) * (b.num : ℚ)) = a / b := by
  by_cases hbn : (b.num : ℚ) = 0
  · have hb0 : b = 0 := by
      have : b.num = 0 := by exact_mod_cast hbn
      exact Rat.zero_iff_num_zero.mpr this
    rw [hbn, hb0, mul_zero, div_zero, div_zero]
  · have ha : ((a.den : ℚ)) ≠ 0 := Nat.cast_ne_zero.mpr a.den_nz
    have hb : ((b.den : ℚ)) ≠ 0 := Nat.cast_ne_zero.mpr b.den_nz
    conv_rhs => rw [← Rat.num_div_den a, ← Rat.num_div_den b]
    rw [div_div_div_comm]
    field_simp
    exact Or.inl (mul_comm _ _)

theorem qDivQ_eq (a b : ℚ) : qDivQ a b = a / b := by
  rcases le_or_lt 0 b.num with h | h
  · rw [qDivQ, if_pos h, qMk_eq_div]
    have ht : ((b.num.toNat : ℚ)) = ((b.num : ℚ)) := by
      exact_mod_cast Int.toNat_of_nonneg h
    push_cast [ht]
    exact num_mul_den_div a b
  · rw [qDivQ, if_neg (not_le.mpr h), qMk_eq_div]
    have habs : ((b.num.natAbs : ℚ)) = -((b.num : ℚ)) := by
      rw [Int.cast_natAbs, Int.cast_abs]
      exact abs_of_neg (by exact_mod_cast h)
    push_cast [habs]
    rw [mul_neg, neg_div_neg_eq]
    exact num_mul_den_div a b

theorem qMax_eq (a b : ℚ) : qMax a b = max a b := by
  simp [qMax, max_def]

theorem qMin_eq (a b : ℚ) : qMin a b = min a b := by
  simp [qMin, min_def]

/-! ## List lemmas -/

theorem map_getD_range (l : List α) (d : α) :
    (List.range l.length).map (fun j => l.getD j d) = l := by
  induction l with
  | nil => rfl
  | cons a t ih =>
    rw [List.length_cons, List.range_succ_eq_map]
    simp only [List.map_cons, List.getD_cons_zero, List.map_map]
    have hc : ((fun j => (a :: t).getD j d) ∘ Nat.succ) = fun j => t.getD j d := by
      funext j
      simp [List.getD_cons_succ]
    rw [hc, ih]

/-! ## Claim C9 -/

/-- Claim C9: a table with zero rows makes `detect_and_encode` fail
immediately with the empty-dataset error; no matrix is returned. -/
theorem c9_empty_input_fails (df : Df) (h : df.rows = []) :
    detect_and_encode df = .error .emptyDataset := by
  unfold detect_and_encode dfEmpty
  rw [h]
  rfl

/-- Witness for C9 at a concrete empty table. -/
theorem c9_witness : detect_and_encode exDf9 = .error .emptyDataset :=
  c9_empty_input_fails exDf9 rfl

/-! ## Claim C3 -/

/-- Claim C3 is false on the code: the same table, thresholds and contents
give different frequent itemsets and rules when the filename contains
`sample_transactions`, because `upload_dataset` lowers `min_support` to at
most 0.05 for such filenames. -/
theorem c3_counterexample :
    uploadAnalysis "sample_transactions.csv" exX3 (qMk 3 5) (qMk 1 2) =
      .ok (([(["a"], qMk 1 1), (["b"], qMk 1 10), (["a", "b"], qMk 1 10)], qMk 1 20),
        ([⟨["b"], ["a"], qMk 1 10, qMk 1 1, qMk 1 1⟩], qMk 1 2)) ∧
    uploadAnalysis "data.csv" exX3 (qMk 3 5) (qMk 1 2) =
      .ok (([(["a"], qMk 1 1)], qMk 3 5), ([], qMk 1 2)) ∧
    uploadAnalysis "sample_transactions.csv" exX3 (qMk 3 5) (qMk 1 2) ≠
      uploadAnalysis "data.csv" exX3 (qMk 3 5) (qMk 1 2) :=
  ⟨by decide, by decide, by decide⟩

/-- Claim C3 amended: the analysis outcome depends on the uploaded file's
name only through whether it contains `sample_transactions`; any two
filenames that agree on containing that substring produce identical
frequent itemsets and rules on identical inputs. -/
theorem c3_filename_independent_within_class (f1 f2 : String) (X : EncodedDf) (s c : ℚ)
    (h : containsSub "sample_transactions" f1 = containsSub "sample_transactions" f2) :
    uploadAnalysis f1 X s c = uploadAnalysis f2 X s c := by
  unfold uploadAnalysis effectiveMinSupport
  rw [h]

/-- Witness for the amended C3 at two distinct concrete filenames. -/
theorem c3_witness :
    containsSub "sample_transactions" "sample_transactions_v2.csv" =
      containsSub "sample_transactions" "my_sample_transactions.csv" ∧
    uploadAnalysis "sample_transactions_v2.csv" exX3 (qMk 3 5) (qMk 1 2) =
      uploadAnalysis "my_sample_transactions.csv" exX3 (qMk 3 5) (qMk 1 2) :=
  ⟨by decide,
   c3_filename_independent_within_class _ _ exX3 (qMk 3 5) (qMk 1 2) (by decide)⟩

/-! ## Claim C5 -/

/-- Claim C5 is false on the code in one corner: when a column whose name
contains `item` exists but its comma-split yields zero transactions,
`detect_and_encode` falls through to the one-hot fallback instead of
letting rule 3 win with the rule-2 strategy (which would fail with the
no-valid-transactions error). -/
theorem c5_counterexample :
    detect_and_encode exDf5 = .ok ⟨["a", "b", "items"], [[1, 0, 0]]⟩ ∧
    claimEncode exDf5 = .error .noValidTransactions ∧
    detect_and_encode exDf5 ≠ claimEncode exDf5 :=
  ⟨by decide, by decide, by decide⟩

/-- Claim C5 amended: `detect_and_encode` is the ordered first-match
cascade (1) grouped id+item, (2) single column, (3) named item column,
(4) one-hot fallback, where rule 3 matches only when its comma-split
yields at least one transaction, falling through to (4) otherwise. -/
theorem c5_first_match_cascade (df : Df) :
    detect_and_encode df = amendedEncode df := by
  unfold detect_and_encode amendedEncode
  by_cases he : dfEmpty df
  · rw [if_pos he, if_pos he]
  · rw [if_neg he, if_neg he]
    generalize dropUnnamed df = d
    unfold detectCore amendedRuleFor applyRule itemColSplit
    by_cases h1 : case1Cond d
    · simp [h1]
    · simp only [h1, Bool.false_eq_true, if_false]
      by_cases h2 : d.cols.length == 1
      · simp [h2]
      · simp only [h2, Bool.false_eq_true, if_false]
        rcases h3 : firstItemColIdx d with _ | j
        · simp [h3]
        · by_cases h4 : (splitColumn d j).isEmpty
          · simp [h3, h4]
          · simp [h3, h4]

/-! ## Claim C10 -/

/-- The column selection of line 123 keeps exactly the columns whose names
do not start with `Unnamed`. -/
theorem dropUnnamed_cols (df : Df) :
    (dropUnnamed df).cols = df.cols.filter (fun c => !startsWithStr "Unnamed" c) := by
  show (keepIdx df).map (fun j => df.cols.getD j "") = _
  unfold keepIdx
  conv_rhs => rw [← map_getD_range df.cols "", List.filter_map]
  rfl

/-- Claim C10: `detect_and_encode` drops every column whose name begins
with `Unnamed` before any detection rule runs, so all shape and name tests
see only the remaining columns; in particular a three-column table whose
first column is `Unnamed: 0` is handled by the two-column grouping rule. -/
theorem c10_unnamed_columns_dropped_first :
    (∀ df : Df, (dropUnnamed df).cols =
        df.cols.filter (fun c => !startsWithStr "Unnamed" c)) ∧
    (∀ df : Df, dfEmpty df = false →
        detect_and_encode df = detectCore (dropUnnamed df)) ∧
    ((dropUnnamed exDf10).cols = ["tid", "item"] ∧
      case1Cond (dropUnnamed exDf10) = true ∧
      detect_and_encode exDf10 =
        transactional_to_onehot (groupedTransactions (dropUnnamed exDf10)) ∧
      detect_and_encode exDf10 =
        .ok ⟨["bread", "eggs", "milk"], [[1, 0, 1], [0, 1, 0]]⟩) := by
  refine ⟨dropUnnamed_cols, ?_, by decide, by decide, by decide, by decide⟩
  intro df h
  unfold detect_and_encode
  rw [h]
  rfl

/-- Witness for C10 at the concrete `Unnamed: 0` table. -/
theorem c10_witness :
    dfEmpty exDf10 = false ∧ detect_and_encode exDf10 = detectCore (dropUnnamed exDf10) :=
  ⟨by decide, c10_unnamed_columns_dropped_first.2.1 exDf10 (by decide)⟩

/-! ## Claim C8 -/

/-- Folding `qMin` computes a lower bound that is one of the inputs. -/
theorem foldl_qMin_spec : ∀ (xs : List ℚ) (x : ℚ),
    (xs.foldl qMin x = x ∨ xs.foldl qMin x ∈ xs) ∧
    xs.foldl qMin x ≤ x ∧ ∀ y ∈ xs, xs.foldl qMin x ≤ y := by
  intro xs
  induction xs with
  | nil => exact fun x => ⟨Or.inl rfl, le_refl x, by simp⟩
  | cons a t ih =>
    intro x
    simp only [List.foldl_cons]
    have h := ih (qMin x a)
    have hx : qMin x a ≤ x := by rw [qMin_eq]; exact min_le_left _ _
    have ha : qMin x a ≤ a := by rw [qMin_eq]; exact min_le_right _ _
    have hcases : qMin x a = x ∨ qMin x a = a := by
      rw [qMin_eq]
      rcases le_total x a with h' | h'
      · exact Or.inl (min_eq_left h')
      · exact Or.inr (min_eq_right h')
    refine ⟨?_, le_trans h.2.1 hx, ?_⟩
    · rcases h.1 with h1 | h1
      · rcases hcases with hc | hc
        · exact Or.inl (h1.trans hc)
        · exact Or.inr (by rw [h1, hc]; exact List.mem_cons_self a t)
      · exact Or.inr (List.mem_cons_of_mem a h1)
    · intro y hy
      rcases List.mem_cons.mp hy with rfl | hy'
      · exact le_trans h.2.1 ha
      · exact h.2.2 y hy'

/-- Claim C8: for a non-empty encoded matrix, `calculate_optimal_support`
returns exactly the five spec formulas over the item-frequency
distribution, where frequencies are column sums over the transaction count
and `listMinQ` is the true minimum of the frequency list. -/
theorem c8_threshold_formulas :
    (∀ X : EncodedDf, X.rows ≠ [] →
      calculate_optimal_support X = claimSuggestions X ∧
      itemFrequencies X =
        (List.range X.cols.length).map
          (fun j => ((colSum X j : ℚ)) / ((X.rows.length : ℚ)))) ∧
    (∀ l : List ℚ, l ≠ [] → listMinQ l ∈ l ∧ ∀ x ∈ l, listMinQ l ≤ x) := by
  constructor
  · intro X _
    constructor
    · have h1 : qMk 1 100 = (0.01 : ℚ) := by rw [qMk_eq_div]; norm_num
      have h2 : qMk 1 50 = (0.02 : ℚ) := by rw [qMk_eq_div]; norm_num
      have h3 : qMk 1 20 = (0.05 : ℚ) := by rw [qMk_eq_div]; norm_num
      have h4 : qMk 1 10 = (0.1 : ℚ) := by rw [qMk_eq_div]; norm_num
      have h5 : qMk 1 5 = (0.2 : ℚ) := by rw [qMk_eq_div]; norm_num
      have h6 : qMk 1 2 = (0.5 : ℚ) := by rw [qMk_eq_div]; norm_num
      have h7 : qMk 3 10 = (0.3 : ℚ) := by rw [qMk_eq_div]; norm_num
      simp [calculate_optimal_support, claimSuggestions, qMax_eq, qMul_eq,
        h1, h2, h3, h4, h5, h6, h7, mul_comm]
    · simp [itemFrequencies, qMk_eq_div]
  · intro l hl
    match l with
    | x :: xs =>
      have h := foldl_qMin_spec xs x
      constructor
      · show xs.foldl qMin x ∈ x :: xs
        rcases h.1 with h1 | h1
        · rw [h1]; exact List.mem_cons_self x xs
        · exact List.mem_cons_of_mem x h1
      · intro y hy
        rcases List.mem_cons.mp hy with rfl | hy'
        · exact h.2.1
        · exact h.2.2 y hy'

/-- Witness for C8 at a concrete ten-row matrix. -/
theorem c8_witness :
    exX3.rows ≠ [] ∧
    (calculate_optimal_support exX3 = claimSuggestions exX3 ∧
      itemFrequencies exX3 =
        (List.range exX3.cols.length).map
          (fun j => ((colSum exX3 j : ℚ)) / ((exX3.rows.length : ℚ)))) :=
  ⟨by decide, c8_threshold_formulas.1 exX3 (by decide)⟩

/-! ## Claim C7 -/

theorem getD_range_map (f : ℕ → α) (d : α) {n i : ℕ} (h : i < n) :
    ((List.range n).map f).getD i d = f i := by
  rw [List.getD_eq_getElem?_getD, List.getElem?_map, List.getElem?_range h]
  rfl

theorem getD_mem_or : ∀ (r : List ℕ) (i d : ℕ), r.getD i d ∈ r ∨ r.getD i d = d := by
  intro r
  induction r with
  | nil => intro i d; right; cases i <;> rfl
  | cons a t ih =>
    intro i d
    cases i with
    | zero => exact Or.inl (by simp)
    | succ n =>
      rcases ih n d with h | h
      · exact Or.inl (by rw [List.getD_cons_succ]; exact List.mem_cons_of_mem a h)
      · exact Or.inr (by rw [List.getD_cons_succ]; exact h)

/-- On 0/1 rows, the dot product of two columns counts the rows where both
columns hold 1. -/
theorem dot_count : ∀ (rows : List (List ℕ)) (i j : ℕ),
    (∀ r ∈ rows, ∀ v ∈ r, v = 0 ∨ v = 1) →
    (rows.map (fun r => r.getD i 0 * r.getD j 0)).sum =
      (rows.filter (fun r => r.getD i 0 == 1 && r.getD j 0 == 1)).length := by
  intro rows i j
  induction rows with
  | nil => intro _; rfl
  | cons r rs ih =>
    intro h
    have hr : ∀ v ∈ r, v = 0 ∨ v = 1 := h r (List.mem_cons_self r rs)
    have hrs := ih (fun r' hr' => h r' (List.mem_cons_of_mem r hr'))
    have hi : r.getD i 0 = 0 ∨ r.getD i 0 = 1 := by
      rcases getD_mem_or r i 0 with hm | hm
      · exact hr _ hm
      · exact Or.inl hm
    have hj : r.getD j 0 = 0 ∨ r.getD j 0 = 1 := by
      rcases getD_mem_or r j 0 with hm | hm
      · exact hr _ hm
      · exact Or.inl hm
    simp only [List.map_cons, List.sum_cons, List.filter_cons]
    rcases hi with hi | hi <;> rcases hj with hj | hj <;>
      (rw [hi, hj]; simp only [hrs]; simp; try omega)

/-- Cell extraction from the built co-occurrence matrix. -/
theorem coCell_build (X : EncodedDf) {i j : ℕ}
    (hi : i < X.cols.length) (hj : j < X.cols.length) :
    coCell (build_cooccurrence X) i j = if i = j then 0 else dotCols X i j := by
  unfold coCell build_cooccurrence
  rw [getD_range_map _ _ hi, getD_range_map _ _ hj]

/-- Claim C7: for a binary matrix, `build_cooccurrence` is `Xᵀ X` with the
diagonal zeroed: off-diagonal cells count the transactions containing both
items, the matrix is symmetric, and the diagonal is zero. -/
theorem c7_cooccurrence (X : EncodedDf) (hb : binaryMatrix X) (i j : ℕ)
    (hi : i < X.cols.length) (hj : j < X.cols.length) :
    coCell (build_cooccurrence X) i j =
      (if i = j then 0 else (X.rows.map (fun r => r.getD i 0 * r.getD j 0)).sum) ∧
    (i ≠ j → coCell (build_cooccurrence X) i j =
      (X.rows.filter (fun r => r.getD i 0 == 1 && r.getD j 0 == 1)).length) ∧
    coCell (build_cooccurrence X) i j = coCell (build_cooccurrence X) j i ∧
    coCell (build_cooccurrence X) i i = 0 := by
  refine ⟨coCell_build X hi hj, ?_, ?_, ?_⟩
  · intro hne
    rw [coCell_build X hi hj, if_neg hne, dotCols]
    exact dot_count X.rows i j hb
  · rw [coCell_build X hi hj, coCell_build X hj hi]
    by_cases h : i = j
    · simp [h]
    · rw [if_neg h, if_neg (fun e => h e.symm)]
      unfold dotCols
      congr 1
      exact List.map_congr_left (fun r _ => mul_comm _ _)
  · rw [coCell_build X hi hi, if_pos rfl]

/-- Witness for C7 on the spec's §8 scenario matrix at items 0 and 1. -/
theorem c7_witness :
    binaryMatrix exXS ∧
    (coCell (build_cooccurrence exXS) 0 1 =
      (if (0 : ℕ) = 1 then 0
        else (exXS.rows.map (fun r => r.getD 0 0 * r.getD 1 0)).sum) ∧
     ((0 : ℕ) ≠ 1 → coCell (build_cooccurrence exXS) 0 1 =
      (exXS.rows.filter (fun r => r.getD 0 0 == 1 && r.getD 1 0 == 1)).length) ∧
     coCell (build_cooccurrence exXS) 0 1 = coCell (build_cooccurrence exXS) 1 0 ∧
     coCell (build_cooccurrence exXS) 0 0 = 0) :=
  ⟨by unfold binaryMatrix; decide,
   c7_cooccurrence exXS (by unfold binaryMatrix; decide) 0 1 (by decide) (by decide)⟩

/-! ## Claim C2 -/

theorem mem_insSupportDesc {x y : List String × ℚ} :
    ∀ {l : List (List String × ℚ)}, x ∈ insSupportDesc y l ↔ x = y ∨ x ∈ l := by
  intro l
  induction l with
  | nil => simp [insSupportDesc]
  | cons a t ih =>
    unfold insSupportDesc
    by_cases h : a.2 < y.2
    · simp [h]
    · simp only [h, if_false, List.mem_cons, ih]
      tauto

theorem mem_foldl_ins : ∀ (l acc : List (List String × ℚ)) (x : List String × ℚ),
    x ∈ l.foldl (fun acc y => insSupportDesc y acc) acc ↔ x ∈ acc ∨ x ∈ l := by
  intro l
  induction l with
  | nil => simp
  | cons a t ih =>
    intro acc x
    rw [List.foldl_cons, ih, mem_insSupportDesc]
    simp only [List.mem_cons]
    tauto

/-- Sorting by support does not change the members of the mined sequence. -/
theorem mem_mineSorted {x : List String × ℚ} {X : EncodedDf} {s : ℚ} :
    x ∈ mineSorted X s ↔ x ∈ mineNamed X s := by
  unfold mineSorted sortSupportDesc
  rw [mem_foldl_ins]
  simp

/-- Every itemset emitted by a level beyond the first passed the support
filter. -/
theorem levelsFrom_support (X : EncodedDf) (s : ℚ) :
    ∀ (fuel : ℕ) (prev : List (List ℕ)) (k : ℕ) (S : List ℕ),
      S ∈ levelsFrom X s fuel prev k → s ≤ support X S := by
  intro fuel
  induction fuel with
  | zero =>
    intro prev k S h
    simp [levelsFrom] at h
  | succ f ih =>
    intro prev k S h
    rw [levelsFrom] at h
    by_cases hp : prev.isEmpty
    · simp [hp] at h
    · simp only [hp, Bool.false_eq_true, if_false] at h
      rcases List.mem_append.mp h with h1 | h2
      · unfold nextLevel at h1
        exact of_decide_eq_true (List.mem_filter.mp h1).2
      · exact ih _ _ _ h2

/-- Every itemset enumerated by the miner has support at least the
threshold. -/
theorem aprioriIdx_support {X : EncodedDf} {s : ℚ} {S : List ℕ}
    (h : S ∈ aprioriIdx X s) : s ≤ support X S := by
  unfold aprioriIdx levelOne at h
  rcases List.mem_append.mp h with h1 | h2
  · rcases List.mem_map.mp h1 with ⟨j, hj, rfl⟩
    exact of_decide_eq_true (List.mem_filter.mp hj).2
  · exact levelsFrom_support X s _ _ _ _ h2

/-- Every generated rule passed the confidence filter. -/
theorem assocRules_confidence {fi : List (List String × ℚ)} {c : ℚ} {r : Rule}
    (h : r ∈ assocRules fi c) : c ≤ r.confidence := by
  unfold assocRules at h
  rcases List.mem_flatMap.mp h with ⟨p, hp, hr⟩
  split at hr
  · rcases List.mem_flatMap.mp hr with ⟨A, hA, hr2⟩
    split at hr2
    · split at hr2
      · rw [List.mem_singleton.mp hr2]
        exact of_decide_eq_true (by assumption)
      · simp at hr2
    · simp at hr2
  · simp at hr

/-- Claim C2: every itemset in the sequence returned by the miner has
support at least the requested `minSupport`, and every rule returned by
the rule generator has confidence at least the requested
`minConfidence`. -/
theorem c2_threshold_compliance :
    (∀ (X : EncodedDf) (s : ℚ) (p : List String × ℚ), p ∈ mineSorted X s → s ≤ p.2) ∧
    (∀ (fi : List (List String × ℚ)) (c : ℚ) (r : Rule),
      r ∈ assocRules fi c → c ≤ r.confidence) := by
  constructor
  · intro X s p hp
    rw [mem_mineSorted] at hp
    unfold mineNamed at hp
    rcases List.mem_map.mp hp with ⟨S, hS, rfl⟩
    exact aprioriIdx_support hS
  · intro fi c r h
    exact assocRules_confidence h

/-- Witness for C2: a mined itemset of the ten-row example and a rule of
the spec's §8 scenario both meet their requested thresholds. -/
theorem c2_witness :
    qMk 3 5 ≤ ((["a"], qMk 1 1) : List String × ℚ).2 ∧
    qMk 3 5 ≤ (⟨["bread"], ["butter"], qMk 1 2, qMk 2 3, qMk 8 9⟩ : Rule).confidence :=
  ⟨c2_threshold_compliance.1 exX3 (qMk 3 5) (["a"], qMk 1 1) (by decide),
   c2_threshold_compliance.2 (mineNamed exXS (qMk 1 2)) (qMk 3 5)
     ⟨["bread"], ["butter"], qMk 1 2, qMk 2 3, qMk 8 9⟩ (by decide)⟩

/-! ## Claim C4 -/

theorem pairwise_insSupportDesc {x : List String × ℚ} :
    ∀ {l : List (List String × ℚ)}, l.Pairwise (fun p q => q.2 ≤ p.2) →
      (insSupportDesc x l).Pairwise (fun p q => q.2 ≤ p.2) := by
  intro l
  induction l with
  | nil =>
    intro _
    simp [insSupportDesc]
  | cons a t ih =>
    intro h
    rw [List.pairwise_cons] at h
    unfold insSupportDesc
    by_cases hc : a.2 < x.2
    · rw [if_pos hc]
      refine List.Pairwise.cons ?_ (List.Pairwise.cons h.1 h.2)
      intro z hz
      rcases List.mem_cons.mp hz with rfl | hz'
      · exact le_of_lt hc
      · exact (h.1 z hz').trans (le_of_lt hc)
    · rw [if_neg hc]
      refine List.Pairwise.cons ?_ (ih h.2)
      intro z hz
      rcases mem_insSupportDesc.mp hz with rfl | hz'
      · exact le_of_not_lt hc
      · exact h.1 z hz'

theorem pairwise_foldl_ins : ∀ (l acc : List (List String × ℚ)),
    acc.Pairwise (fun p q => q.2 ≤ p.2) →
    (l.foldl (fun acc y => insSupportDesc y acc) acc).Pairwise (fun p q => q.2 ≤ p.2) := by
  intro l
  induction l with
  | nil => exact fun acc h => h
  | cons a t ih =>
    intro acc h
    exact ih _ (pairwise_insSupportDesc h)

/-- Claim C4 is false on the code: equal-support itemsets are left in the
miner's generation order (here the anti-alphabetical column order of the
one-hot fallback), not re-ordered by size and lexicographic item order. -/
theorem c4_counterexample :
    detect_and_encode exDf4 = .ok exX4 ∧
    mineSorted exX4 (qMk 1 2) = [(["b"], qMk 1 2), (["a"], qMk 1 2)] ∧
    sortedByB claimItemsetLe (mineSorted exX4 (qMk 1 2)) = false :=
  ⟨by decide, by decide, by decide⟩

/-- Claim C4 amended: the returned sequence is sorted by support
descending; the relative order of equal-support itemsets is the miner's
generation order and is not normalized further. -/
theorem c4_sorted_by_support_descending (X : EncodedDf) (s : ℚ) :
    (mineSorted X s).Pairwise (fun p q => q.2 ≤ p.2) :=
  pairwise_foldl_ins (mineNamed X s) [] (List.Pairwise.nil)

/-! ## Claim C1 -/

/-- Claim C1 is false on the code: when mining at the requested minSupport
yields nothing, `upload_dataset` silently re-runs mining at the `very_low`
suggestion before (and instead of) reporting the error, and when rule
generation at the requested minConfidence yields nothing it re-runs at
confidence 0.1. -/
theorem c1_counterexample :
    mineNamed exX1 (qMk 9 10) = [] ∧
    uploadMining exX1 (qMk 9 10) =
      .ok ([(["a"], qMk 1 2), (["b"], qMk 1 2)], qMk 1 4) ∧
    (uploadRules (mineNamed exX1b (qMk 1 10)) (qMk 1 2)).2 = qMk 1 10 ∧
    (uploadRules (mineNamed exX1b (qMk 1 10)) (qMk 1 2)).1 ≠ [] :=
  ⟨by decide, by decide, by decide, by decide⟩

/-- Claim C1 amended: the pipeline reports the no-frequent-itemsets error
exactly when mining is empty at the requested threshold and also at
`very_low` (or the requested threshold does not exceed `very_low`); on
success the reported threshold is the one actually mined at — either the
requested one, or `very_low` when the requested mining was empty.  Rule
generation keeps the requested confidence unless it produced no rules and
exceeded 0.1, in which case exactly 0.1 is substituted and reported. -/
theorem c1_retry_policy :
    (∀ (X : EncodedDf) (s : ℚ),
      uploadMining X s = .error .noFrequentItemsets ↔
        (mineNamed X s = [] ∧
          (s ≤ (calculate_optimal_support X).very_low ∨
            mineNamed X ((calculate_optimal_support X).very_low) = []))) ∧
    (∀ (X : EncodedDf) (s : ℚ) (fi : List (List String × ℚ)) (t : ℚ),
      uploadMining X s = .ok (fi, t) →
        fi = mineNamed X t ∧ fi ≠ [] ∧
          (t = s ∨ (t = (calculate_optimal_support X).very_low ∧ mineNamed X s = []))) ∧
    (∀ (fi : List (List String × ℚ)) (c : ℚ) (rs : List Rule) (t : ℚ),
      uploadRules fi c = (rs, t) →
        (t = c ∨ (t = qMk 1 10 ∧ assocRules fi c = [] ∧ qMk 1 10 < c)) ∧
        (1 < fi.length → rs = assocRules fi t) ∧
        (fi.length ≤ 1 → rs = [])) := by
  refine ⟨?_, ?_, ?_⟩
  · intro X s
    unfold uploadMining
    by_cases h1 : (mineNamed X s).isEmpty
    · have h1' : mineNamed X s = [] := by simpa using h1
      by_cases h2 : (calculate_optimal_support X).very_low < s
      · by_cases h3 : (mineNamed X ((calculate_optimal_support X).very_low)).isEmpty
        · have h3' : mineNamed X ((calculate_optimal_support X).very_low) = [] := by
            simpa using h3
          simp [h1, h2, h3, h1', h3']
        · have h3' : mineNamed X ((calculate_optimal_support X).very_low) ≠ [] := by
            simpa using h3
          simp [h1, h2, h3, h1', h3', not_le.mpr h2]
      · simp [h1, h2, h1', le_of_not_lt h2]
    · have h1' : mineNamed X s ≠ [] := by simpa using h1
      simp [h1, h1']
  · intro X s fi t h
    unfold uploadMining at h
    by_cases h1 : (mineNamed X s).isEmpty
    · have h1' : mineNamed X s = [] := by simpa using h1
      by_cases h2 : (calculate_optimal_support X).very_low < s
      · simp only [h1, decide_eq_true h2, Bool.and_self, if_true, Bool.true_and] at h
        by_cases h3 : (mineNamed X ((calculate_optimal_support X).very_low)).isEmpty
        · simp [h3] at h
        · simp only [h3, Bool.false_eq_true, if_false] at h
          have hp : mineNamed X ((calculate_optimal_support X).very_low) = fi ∧
              (calculate_optimal_support X).very_low = t := by
            have := Except.ok.inj h
            exact ⟨congrArg Prod.fst this, congrArg Prod.snd this⟩
          obtain ⟨rfl, rfl⟩ := hp.imp Eq.symm Eq.symm
          exact ⟨rfl, by simpa using h3, Or.inr ⟨rfl, h1'⟩⟩
      · simp only [h1, decide_eq_false h2, Bool.and_false, Bool.false_eq_true, if_false] at h
        simp [h1'] at h
    · have h1' : mineNamed X s ≠ [] := by simpa using h1
      simp only [h1, Bool.false_and, Bool.false_eq_true, if_false] at h
      have hp : mineNamed X s = fi ∧ s = t := by
        have := Except.ok.inj h
        exact ⟨congrArg Prod.fst this, congrArg Prod.snd this⟩
      obtain ⟨rfl, rfl⟩ := hp.imp Eq.symm Eq.symm
      exact ⟨rfl, h1', Or.inl rfl⟩
  · intro fi c rs t h
    unfold uploadRules at h
    by_cases h1 : 1 < fi.length
    · rw [if_pos h1] at h
      by_cases h2 : (assocRules fi c).isEmpty
      · by_cases h3 : qMk 1 10 < c
        · simp only [h2, decide_eq_true h3, Bool.and_self, if_true, Bool.true_and] at h
          cases h
          exact ⟨Or.inr ⟨rfl, by simpa using h2, h3⟩, fun _ => rfl,
            fun hle => absurd h1 (not_lt.mpr hle)⟩
        · simp only [h2, decide_eq_false h3, Bool.and_false, Bool.false_eq_true,
            if_false] at h
          cases h
          exact ⟨Or.inl rfl, fun _ => rfl, fun hle => absurd h1 (not_lt.mpr hle)⟩
      · simp only [h2, Bool.false_and, Bool.false_eq_true, if_false] at h
        cases h
        exact ⟨Or.inl rfl, fun _ => rfl, fun hle => absurd h1 (not_lt.mpr hle)⟩
    · rw [if_neg h1] at h
      cases h
      exact ⟨Or.inl rfl, fun hlt => absurd hlt h1, fun _ => rfl⟩

/-- Witness for the amended C1: the retried run at `very_low` is reported
with the threshold it actually used. -/
theorem c1_witness :
    ([(["a"], qMk 1 2), (["b"], qMk 1 2)] : List (List String × ℚ)) =
        mineNamed exX1 (qMk 1 4) ∧
    ([(["a"], qMk 1 2), (["b"], qMk 1 2)] : List (List String × ℚ)) ≠ [] ∧
    (qMk 1 4 = qMk 9 10 ∨
      (qMk 1 4 = (calculate_optimal_support exX1).very_low ∧
        mineNamed exX1 (qMk 9 10) = [])) :=
  c1_retry_policy.2.1 exX1 (qMk 9 10)
    [(["a"], qMk 1 2), (["b"], qMk 1 2)] (qMk 1 4) (by decide)

/-! ## Claim C6 -/

/-- Claim C6 is false on the code for negative numeric cells: the cell
`-1` in a numeric-dtype column encodes to 0 (the code uses `> 0`), while
the claim's nonzero rule demands 1. -/
theorem c6_counterexample :
    detect_and_encode exDf6 = .ok ⟨["a", "b"], [[0, 1]]⟩ ∧
    exDf6.rows.map (fun r => r.map claimFallbackCell) = [[1, 1]] :=
  ⟨by decide, by decide⟩

/-- Claim C6 amended: in the one-hot fallback, cells of object (text-
holding) columns go through the truthy-token test for text and the nonzero
test for numbers, while cells of numeric-dtype columns encode to 1 exactly
when strictly positive; the encoder fails exactly when the resulting
matrix has zero total positive cells. -/
theorem c6_fallback_semantics :
    (∀ (ob : Bool) (q : ℚ), fallbackCell ob (.num q) =
        if ob then (if q ≠ 0 then 1 else 0) else (if 0 < q then 1 else 0)) ∧
    (∀ s : String, fallbackCell true (.str s) =
        if lowerStr (pyStrip s) ∈ truthyTokens then 1 else 0) ∧
    (∀ ob : Bool, fallbackCell ob (.na) = 0) ∧
    (∀ df : Df, fallbackEncode df = .error .noItemsAfterEncoding ↔
        ((fallbackMatrix df).map List.sum).sum = 0) ∧
    (∀ df : Df, dfEmpty df = false → case1Cond (dropUnnamed df) = false →
      (dropUnnamed df).cols.length ≠ 1 → firstItemColIdx (dropUnnamed df) = none →
      detect_and_encode df = fallbackEncode (dropUnnamed df)) := by
  refine ⟨?_, ?_, ?_, ?_, ?_⟩
  · intro ob q
    cases ob <;> rfl
  · intro s
    rfl
  · intro ob
    cases ob <;> rfl
  · intro df
    unfold fallbackEncode
    by_cases h : ((fallbackMatrix df).map List.sum).sum = 0
    · simp [h]
    · simp [h]
  · intro df he h1 h2 h3
    unfold detect_and_encode detectCore
    rw [he, h1, h3]
    simp only [Bool.false_eq_true, if_false]
    rw [if_neg (by simpa using h2)]

/-- Witness for the amended C6 at the concrete negative-value table. -/
theorem c6_witness :
    dfEmpty exDf6 = false ∧
    detect_and_encode exDf6 = fallbackEncode (dropUnnamed exDf6) :=
  ⟨by decide,
   c6_fallback_semantics.2.2.2.2 exDf6 (by decide) (by decide) (by decide) (by decide)⟩

end MBA
